import Mathlib

/-!
Verification of the two-player word-guessing game server (`src/server.js`).

The development shallowly embeds the server's data model and operations:

* `checkGuess` with its inner `normalizeHebrew` (server.js lines 217-254),
* `WORD_LIST` (lines 20-25),
* `GameRoom` with `startNewRound`, `updatePlayerGuess`, `submitPlayerGuess`,
  `isGameOver`, `getWinner` (lines 31-111),
* the socket event handlers `findMatch`, `cancelMatch`, `updateGuess`,
  `submitGuess`, `newRound`, `disconnect` (lines 113-287), as a step
  function over an explicit server state.

JavaScript strings are embedded as `List Char` (every character literal in
the file is a single UTF-16 code unit, so `split('')` is exactly the list
of characters).  The character literals are taken verbatim from the file's
bytes: the string constants in `src/server.js` are stored as the code
points written below (several entries of `WORD_LIST` are the empty string,
and three keys of `finalToRegular` are the empty string; the empty-string
keys are unreachable after `split('')`, since a split character is never
the empty string, so they are dropped from the embedding).
-/

namespace WordGame

/-- Letter marks produced by the evaluator: `'correct' | 'present' | 'absent'`. -/
inductive Mark where
  | correct
  | present
  | absent
deriving DecidableEq, Repr

/-- Code point U+795D: first key of `finalToRegular` in `src/server.js` line 221. -/
def finalPe : Char := Char.ofNat 0x795D

/-- Code point U+9A7B: value the first key maps to. -/
def regularPe : Char := Char.ofNat 0x9A7B

/-- Code point U+6293: second key of `finalToRegular` in `src/server.js` line 221. -/
def finalTsadi : Char := Char.ofNat 0x6293

/-- Code point U+722A: value the second key maps to. -/
def regularTsadi : Char := Char.ofNat 0x722A

/-- Lookup in the `finalToRegular` object of `checkGuess` (server.js lines
219-222).  Only the two non-empty keys are representable per character; the
three `'': ''` entries can never match a character produced by `split('')`. -/
def finalToRegular (c : Char) : Option Char :=
  if c = finalPe then some regularPe
  else if c = finalTsadi then some regularTsadi
  else none

/-- Per-character canonicalization: `finalToRegular[char] || char`. -/
def normalizeChar (c : Char) : Char :=
  (finalToRegular c).getD c

/-- Embedding of `normalizeHebrew` (server.js lines 218-224):
`text.split('').map(char => finalToRegular[char] || char).join('')`. -/
def normalizeHebrew (text : List Char) : List Char :=
  text.map normalizeChar

/-- First pass of `checkGuess`: the flag `result[i] === 'correct'` for each
guess position `i`, i.e. whether `guessLetters[i] === targetLetters[i]`
(comparison with a missing target position is false, as in JS where
`letter === undefined` fails). -/
def correctFlags : List Char → List Char → List Bool
  | [], _ => []
  | _ :: gs, [] => false :: correctFlags gs []
  | g :: gs, t :: ts => decide (g = t) :: correctFlags gs ts

/-- Consumption state of the target after the first pass: `used[j]` is true
iff target position `j` was matched exactly by the guess letter at `j`. -/
def initialUsed : List Char → List Char → List Bool
  | _, [] => []
  | [], _ :: ts => false :: initialUsed [] ts
  | g :: gs, t :: ts => decide (g = t) :: initialUsed gs ts

/-- Embedding of `targetLetters.findIndex((l, idx) => l === letter && !used[idx])`.
The `used` list always has the target's length at every call site; if it were
shorter, `used[idx]` would be `undefined` and `!used[idx]` true, which the
missing-`used` case mirrors. -/
def findUnusedIdx (letter : Char) : List Char → List Bool → Option Nat
  | [], _ => none
  | t :: ts, [] =>
      if t = letter then some 0
      else (findUnusedIdx letter ts []).map (· + 1)
  | t :: ts, u :: us =>
      if t = letter ∧ u = false then some 0
      else (findUnusedIdx letter ts us).map (· + 1)

/-- Second pass of `checkGuess` (server.js lines 241-251): walk the guess
letters together with their pass-1 flags; a non-correct position claims the
first unconsumed matching target position (`present`) or is `absent`. -/
def scorePass2 (t : List Char) : List Char → List Bool → List Bool → List Mark
  | [], _, _ => []
  | _ :: _, [], _ => []
  | g :: gs, f :: fs, used =>
      if f then Mark.correct :: scorePass2 t gs fs used
      else
        match findUnusedIdx g t used with
        | some idx => Mark.present :: scorePass2 t gs fs (used.set idx true)
        | none => Mark.absent :: scorePass2 t gs fs used

/-- Embedding of `checkGuess(guess, target)` (server.js lines 217-254): both
strings are canonicalized, then the two scoring passes run. -/
def checkGuess (guess target : List Char) : List Mark :=
  scorePass2 (normalizeHebrew target) (normalizeHebrew guess)
    (correctFlags (normalizeHebrew guess) (normalizeHebrew target))
    (initialUsed (normalizeHebrew guess) (normalizeHebrew target))

/-- Word vocabulary `WORD_LIST` (server.js lines 20-25), code points exactly
as stored in the file (several entries are the empty string). -/
def WORD_LIST : List (List Char) :=
  [ [Char.ofNat 0x7816], [Char.ofNat 0x8F6C],
    [Char.ofNat 0x62FD, Char.ofNat 0x4E13],
    [Char.ofNat 0x6CE8, Char.ofNat 0x4E13], [],
    [Char.ofNat 0x8F6C],
    [Char.ofNat 0x4F4F, Char.ofNat 0x9A7B, Char.ofNat 0x4E13],
    [], [], [],
    [], [], [Char.ofNat 0x8F6C], [], [],
    [Char.ofNat 0x4E13],
    [Char.ofNat 0x7816, Char.ofNat 0x7816],
    [Char.ofNat 0x4E13],
    [Char.ofNat 0x6CE8, Char.ofNat 0x6293],
    [Char.ofNat 0x9A7B, Char.ofNat 0x4E13] ]

/-- Records one submitted guess: `{ word: guess, result }` (server.js line 79). -/
structure GuessRecord where
  word : List Char
  result : List Mark
deriving DecidableEq, Repr

/-- Per-player state created in the `GameRoom` constructor (server.js lines
35-50): `{ id, guesses: [], currentGuess: '', won: false, finished: false,
score: 0 }`. -/
structure PlayerState where
  id : String
  guesses : List GuessRecord
  currentGuess : List Char
  won : Bool
  finished : Bool
  score : Nat
deriving DecidableEq, Repr

/-- Fresh player entry as built by the `GameRoom` constructor. -/
def freshPlayer (pid : String) : PlayerState :=
  { id := pid, guesses := [], currentGuess := [], won := false,
    finished := false, score := 0 }

/-- Embedding of `GameRoom` (server.js lines 31-111).  The `players` object
is embedded as its values in key-insertion order; JavaScript object keys are
unique, so `{[player1]: ..., [player2]: ...}` has two entries when the ids
differ and one entry (the second literal wins) when they coincide. -/
structure GameRoom where
  roomId : String
  players : List PlayerState
  targetWord : List Char
  gameStarted : Bool
deriving DecidableEq, Repr

/-- Embedding of the `GameRoom` constructor (server.js lines 32-54).  The
random `getRandomWord()` pick is passed in as the oracle argument `w`. -/
def mkRoom (roomId player1 player2 : String) (w : List Char) : GameRoom :=
  { roomId := roomId
    players :=
      if player1 = player2 then [freshPlayer player2]
      else [freshPlayer player1, freshPlayer player2]
    targetWord := w
    gameStarted := false }

/-- Embedding of `GameRoom.startNewRound` (server.js lines 60-69); the new
`getRandomWord()` pick is the oracle argument `w`. -/
def GameRoom.startNewRound (room : GameRoom) (w : List Char) : GameRoom :=
  { room with
    targetWord := w
    players := room.players.map fun p =>
      { p with guesses := [], currentGuess := [], won := false, finished := false }
    gameStarted := true }

/-- Embedding of `GameRoom.updatePlayerGuess` (server.js lines 71-75): sets
`currentGuess` on the entry keyed by `playerId`, if present. -/
def GameRoom.updatePlayerGuess (room : GameRoom) (playerId : String)
    (guess : List Char) : GameRoom :=
  { room with
    players := room.players.map fun p =>
      if p.id = playerId then { p with currentGuess := guess } else p }

/-- Update applied by `submitPlayerGuess` to the submitting player's entry:
push the record, clear `currentGuess`, then set `won`/`finished`/`score`
per the all-correct check and the six-guess cap (server.js lines 79-89). -/
def applySubmit (guess : List Char) (result : List Mark) (p : PlayerState) :
    PlayerState :=
  let p1 := { p with guesses := p.guesses ++ [{ word := guess, result := result }],
                     currentGuess := [] }
  if result.all fun r => decide (r = Mark.correct) then
    { p1 with won := true, finished := true, score := p1.score + 1 }
  else if p1.guesses.length ≥ 6 then
    { p1 with finished := true }
  else p1

/-- Embedding of `GameRoom.submitPlayerGuess` (server.js lines 77-91): the
entry keyed by `playerId`, if present, receives the submitted record. -/
def GameRoom.submitPlayerGuess (room : GameRoom) (playerId : String)
    (guess : List Char) (result : List Mark) : GameRoom :=
  { room with
    players := room.players.map fun p =>
      if p.id = playerId then applySubmit guess result p else p }

/-- Embedding of `GameRoom.isGameOver` (server.js lines 93-96). -/
def GameRoom.isGameOver (room : GameRoom) : Bool :=
  room.players.all fun p => p.finished

/-- Embedding of `GameRoom.getWinner` (server.js lines 98-102): id of the
first entry (in key order) whose `won` flag is set, else `null`. -/
def GameRoom.getWinner (room : GameRoom) : Option String :=
  (room.players.find? fun p => p.won).map fun p => p.id

/-- Process-wide server state: the `rooms` map, the `waitingPlayers` array
(embedded by socket id), and each socket's `roomId` property (server.js
lines 27-29, 134-135). -/
structure ServerState where
  rooms : List (String × GameRoom)
  waitingPlayers : List String
  socketRooms : List (String × String)
deriving DecidableEq, Repr

/-- Lookup in a JS `Map` (or per-socket property table) embedded as an
association list in insertion order. -/
def mapGet {α : Type} (m : List (String × α)) (k : String) : Option α :=
  (m.find? fun e => decide (e.1 = k)).map fun e => e.2

/-- `Map.set` / property assignment: replace the entry in place if the key
exists, else append. -/
def mapSet {α : Type} : List (String × α) → String → α → List (String × α)
  | [], k, v => [(k, v)]
  | e :: es, k, v => if e.1 = k then (k, v) :: es else e :: mapSet es k v

/-- `Map.delete`: removes the entry for `k` (keys are unique, so the first
occurrence is the only one). -/
def mapDel {α : Type} : List (String × α) → String → List (String × α)
  | [], _ => []
  | e :: es, k => if e.1 = k then es else e :: mapDel es k

/-- Inbound events of the server, one per socket handler.  The `w` arguments
are the oracle for the `getRandomWord()` draws.  `roundStart` is the firing
of the `setTimeout` scheduled inside `findMatch` (server.js lines 153-159):
the spec treats this delay as a purely cosmetic suspension, delivered here
as its own event. -/
inductive Event where
  | findMatch (sid : String) (w : List Char)
  | cancelMatch (sid : String)
  | updateGuess (sid : String) (guess : List Char)
  | submitGuess (sid : String) (guess : List Char)
  | newRound (sid : String) (w : List Char)
  | roundStart (rid : String) (w : List Char)
  | disconnect (sid : String)
deriving DecidableEq, Repr

/-- One step of the server: the body of the matching socket handler
(server.js lines 117-286).  Notes on fidelity:

* `findMatch` performs no membership check: a non-empty queue is popped
  (`shift()`) even when the caller is the waiting player, and an empty
  queue gets the caller appended unconditionally (lines 120-166).
* `submitGuess` requires only that the socket has a room, the guess is
  truthy (non-empty) and the lengths match (line 195); `gameStarted` and
  the player's `finished` flag are not consulted.
* `roundStart`'s closure holds the room object; if the room was deleted
  before the timer fires, the mutation hits an object no longer reachable
  through `rooms`, which the embedding renders as a no-op.
* `disconnect` leaves the socket's `roomId` property in place, exactly as
  the code does; the socket emits no further events afterwards. -/
def step (s : ServerState) : Event → ServerState
  | .findMatch sid w =>
      match s.waitingPlayers with
      | opponent :: rest =>
          let rid := "room_" ++ sid ++ "_" ++ opponent
          { s with
            waitingPlayers := rest
            rooms := mapSet s.rooms rid (mkRoom rid sid opponent w)
            socketRooms := mapSet (mapSet s.socketRooms sid rid) opponent rid }
      | [] => { s with waitingPlayers := s.waitingPlayers ++ [sid] }
  | .cancelMatch sid => { s with waitingPlayers := s.waitingPlayers.erase sid }
  | .updateGuess sid guess =>
      match mapGet s.socketRooms sid with
      | none => s
      | some rid =>
          match mapGet s.rooms rid with
          | none => s
          | some room =>
              { s with rooms := mapSet s.rooms rid (room.updatePlayerGuess sid guess) }
  | .submitGuess sid guess =>
      match mapGet s.socketRooms sid with
      | none => s
      | some rid =>
          match mapGet s.rooms rid with
          | none => s
          | some room =>
              if guess ≠ [] ∧ guess.length = room.targetWord.length then
                { s with
                  rooms := mapSet s.rooms rid
                    (room.submitPlayerGuess sid guess
                      (checkGuess guess room.targetWord)) }
              else s
  | .newRound sid w =>
      match mapGet s.socketRooms sid with
      | none => s
      | some rid =>
          match mapGet s.rooms rid with
          | none => s
          | some room =>
              { s with rooms := mapSet s.rooms rid (room.startNewRound w) }
  | .roundStart rid w =>
      match mapGet s.rooms rid with
      | none => s
      | some room =>
          { s with rooms := mapSet s.rooms rid (room.startNewRound w) }
  | .disconnect sid =>
      let s1 := { s with waitingPlayers := s.waitingPlayers.erase sid }
      match mapGet s1.socketRooms sid with
      | none => s1
      | some rid => { s1 with rooms := mapDel s1.rooms rid }

/-- Server state at process start: empty registry, empty queue. -/
def initialState : ServerState :=
  { rooms := [], waitingPlayers := [], socketRooms := [] }

/-- Runs a sequence of inbound events from process start. -/
def runEvents (es : List Event) : ServerState :=
  es.foldl step initialState

theorem correctFlags_self (t : List Char) :
    correctFlags t t = List.replicate t.length true := by
  induction t with
  | nil => rfl
  | cons c cs ih => simp [correctFlags, ih, List.replicate]

theorem scorePass2_all_true (t : List Char) (g : List Char) (used : List Bool)
    (flags : List Bool) (hf : flags = List.replicate g.length true) :
    scorePass2 t g flags used = List.replicate g.length Mark.correct := by
  induction g generalizing flags used with
  | nil => subst hf; rfl
  | cons c cs ih =>
      subst hf
      simp [scorePass2, List.replicate, ih _ _ rfl]

theorem checkGuess_self (t : List Char) :
    checkGuess t t = List.replicate t.length Mark.correct := by
  unfold checkGuess
  rw [correctFlags_self, scorePass2_all_true _ _ _ _ rfl]
  simp [normalizeHebrew]

/-- C8: for every target word in the vocabulary `WORD_LIST`, evaluating the
target against itself returns a mark sequence of the target's length in
which every mark is `correct`. -/
theorem wordlist_self_eval_all_correct (t : List Char) (ht : t ∈ WORD_LIST) :
    checkGuess t t = List.replicate t.length Mark.correct :=
  checkGuess_self t

/-- Witness for C8 at the first vocabulary word. -/
theorem wordlist_self_eval_all_correct_witness :
    [Char.ofNat 0x7816] ∈ WORD_LIST ∧
      checkGuess [Char.ofNat 0x7816] [Char.ofNat 0x7816] =
        List.replicate [Char.ofNat 0x7816].length Mark.correct :=
  ⟨by decide, wordlist_self_eval_all_correct [Char.ofNat 0x7816] (by decide)⟩

/-- C3: the duplicate-letter pattern target `ABCB` versus guess `BBXA`,
stated up to renaming: for any four letters whose canonical forms are
pairwise distinct, the evaluator returns exactly
`[present, correct, absent, present]` — the exact pass consumes target
index 1, the presence pass awards the remaining duplicate to guess
index 0 (claiming target index 3) and target index 0's letter to guess
index 3. -/
theorem checkGuess_duplicate_pattern (a b c x : Char)
    (hab : normalizeChar a ≠ normalizeChar b)
    (hac : normalizeChar a ≠ normalizeChar c)
    (hax : normalizeChar a ≠ normalizeChar x)
    (hbc : normalizeChar b ≠ normalizeChar c)
    (hbx : normalizeChar b ≠ normalizeChar x)
    (hcx : normalizeChar c ≠ normalizeChar x) :
    checkGuess [b, b, x, a] [a, b, c, b] =
      [Mark.present, Mark.correct, Mark.absent, Mark.present] := by
  unfold checkGuess normalizeHebrew
  simp [correctFlags, initialUsed, scorePass2, findUnusedIdx, List.set,
    hab, hac, hax, hbc, hbx, hcx,
    Ne.symm hab, Ne.symm hac, Ne.symm hax, Ne.symm hbc, Ne.symm hbx,
    Ne.symm hcx]

/-- Witness for C3 at four concrete distinct letters. -/
theorem checkGuess_duplicate_pattern_witness :
    checkGuess ['b', 'b', 'x', 'a'] ['a', 'b', 'c', 'b'] =
      [Mark.present, Mark.correct, Mark.absent, Mark.present] :=
  checkGuess_duplicate_pattern 'a' 'b' 'c' 'x' (by decide) (by decide)
    (by decide) (by decide) (by decide) (by decide)

theorem set_of_getElem_eq {α : Type} (l : List α) (i : Nat) (a : α)
    (h : l[i]? = some a) : l.set i a = l := by
  induction l generalizing i with
  | nil => simp at h
  | cons b bs ih =>
      cases i with
      | zero => simp_all
      | succ j => simp_all [List.set]

theorem normalizeChar_of_final (f r : Char) (hf : finalToRegular f = some r) :
    normalizeChar f = r := by
  unfold normalizeChar
  rw [hf]
  rfl

theorem normalizeChar_of_regular (f r : Char) (hf : finalToRegular f = some r) :
    normalizeChar r = r := by
  unfold finalToRegular at hf
  split_ifs at hf with h1 h2 <;> first
    | (injection hf with h; subst h; decide)
    | (simp at hf)

theorem normalizeHebrew_set (l : List Char) (i : Nat) (f r : Char)
    (hf : finalToRegular f = some r) (hi : l[i]? = some r) :
    normalizeHebrew (l.set i f) = normalizeHebrew l := by
  unfold normalizeHebrew
  rw [List.map_set, normalizeChar_of_final f r hf]
  apply set_of_getElem_eq
  rw [List.getElem?_map, hi]
  simp [normalizeChar_of_regular f r hf]

/-- C4: for every word and target of equal length and every letter `r` that
has a positional-final glyph variant `f` (an entry of `finalToRegular`),
replacing `r` by `f` at any position where `r` occurs — in either the word
or the target — leaves the mark sequence returned by `checkGuess`
unchanged. -/
theorem checkGuess_final_form_invariant (w t : List Char)
    (hlen : w.length = t.length) (f r : Char)
    (hf : finalToRegular f = some r) (i : Nat) :
    (w[i]? = some r → checkGuess (w.set i f) t = checkGuess w t) ∧
    (t[i]? = some r → checkGuess w (t.set i f) = checkGuess w t) := by
  constructor <;> intro hi <;> unfold checkGuess <;>
    rw [normalizeHebrew_set _ i f r hf hi]

/-- Witness for C4: the first final-form pair at position 0 of a
one-letter word and target. -/
theorem checkGuess_final_form_invariant_witness :
    (checkGuess ([regularPe].set 0 finalPe) [regularPe] =
      checkGuess [regularPe] [regularPe]) ∧
    (checkGuess [regularPe] ([regularPe].set 0 finalPe) =
      checkGuess [regularPe] [regularPe]) :=
  ⟨(checkGuess_final_form_invariant [regularPe] [regularPe] rfl finalPe
      regularPe (by decide) 0).1 (by decide),
   (checkGuess_final_form_invariant [regularPe] [regularPe] rfl finalPe
      regularPe (by decide) 0).2 (by decide)⟩

/-- C9: `updateGuess(playerId, text)` sets only that player's `currentGuess`
to the text: the room's id, target word and started flag are unchanged,
every player entry keeps its `id`, `guesses`, `won`, `finished` and `score`
(and, for other players, its `currentGuess` too), and repeating the call
with the same text is idempotent. -/
theorem updatePlayerGuess_frame (room : GameRoom) (pid : String)
    (t : List Char) :
    (room.updatePlayerGuess pid t).roomId = room.roomId ∧
    (room.updatePlayerGuess pid t).targetWord = room.targetWord ∧
    (room.updatePlayerGuess pid t).gameStarted = room.gameStarted ∧
    (room.updatePlayerGuess pid t).players.length = room.players.length ∧
    (∀ (i : Nat) (p : PlayerState), room.players[i]? = some p →
      ∃ q : PlayerState, (room.updatePlayerGuess pid t).players[i]? = some q ∧
        q.id = p.id ∧ q.guesses = p.guesses ∧ q.won = p.won ∧
        q.finished = p.finished ∧ q.score = p.score ∧
        q.currentGuess = if p.id = pid then t else p.currentGuess) ∧
    (room.updatePlayerGuess pid t).updatePlayerGuess pid t =
      room.updatePlayerGuess pid t := by
  refine ⟨rfl, rfl, rfl, by simp [GameRoom.updatePlayerGuess], ?_, ?_⟩
  · intro i p hp
    refine ⟨if p.id = pid then { p with currentGuess := t } else p, ?_, ?_⟩
    · simp [GameRoom.updatePlayerGuess, List.getElem?_map, hp]
    · by_cases hid : p.id = pid <;> simp [hid]
  · unfold GameRoom.updatePlayerGuess
    simp only [List.map_map]
    congr 1
    apply List.map_congr_left
    intro p _
    by_cases hid : p.id = pid <;> simp [hid]

/-- Witness for C9: updating player `a`'s live guess in a fresh room. -/
theorem updatePlayerGuess_frame_witness :
    ∃ q : PlayerState, ((mkRoom "w9" "a" "b" []).updatePlayerGuess "a"
        [Char.ofNat 0x7816]).players[0]? = some q ∧
      q.id = (freshPlayer "a").id ∧ q.guesses = (freshPlayer "a").guesses ∧
      q.won = (freshPlayer "a").won ∧ q.finished = (freshPlayer "a").finished ∧
      q.score = (freshPlayer "a").score ∧
      q.currentGuess =
        if (freshPlayer "a").id = "a" then [Char.ofNat 0x7816]
        else (freshPlayer "a").currentGuess :=
  (updatePlayerGuess_frame (mkRoom "w9" "a" "b" []) "a"
      [Char.ofNat 0x7816]).2.2.2.2.1 0 (freshPlayer "a") (by decide)

theorem applySubmit_id (g : List Char) (res : List Mark) (p : PlayerState) :
    (applySubmit g res p).id = p.id := by
  unfold applySubmit
  dsimp only
  split
  · rfl
  · split <;> rfl

/-- Counterexample to C6: two `findMatch` calls by the same player are a
reachable trace, and the room they create has a single player entry, not
two. -/
theorem room_single_key_counterexample :
    (mapGet (runEvents [Event.findMatch "r1" [Char.ofNat 0x7816],
        Event.findMatch "r1" [Char.ofNat 0x7816]]).rooms
      "room_r1_r1").map (fun r => r.players.length) = some 1 := by
  decide

/-- C6 (amended): every `GameRoom` created from two distinct PlayerIds has
exactly those two keys, and the key sequence is preserved by every room
operation (`updatePlayerGuess`, `submitPlayerGuess`, `startNewRound`);
creation from coinciding ids — which the self-pairing `findMatch` path can
produce — instead yields a single key. -/
theorem room_two_keys_of_distinct (rid p1 p2 : String) (w : List Char)
    (h : p1 ≠ p2) :
    ((mkRoom rid p1 p2 w).players.map fun p => p.id) = [p1, p2] ∧
    (∀ (room : GameRoom) (pid : String) (g : List Char),
      ((room.updatePlayerGuess pid g).players.map fun p => p.id) =
        room.players.map fun p => p.id) ∧
    (∀ (room : GameRoom) (pid : String) (g : List Char) (res : List Mark),
      ((room.submitPlayerGuess pid g res).players.map fun p => p.id) =
        room.players.map fun p => p.id) ∧
    (∀ (room : GameRoom) (w2 : List Char),
      ((room.startNewRound w2).players.map fun p => p.id) =
        room.players.map fun p => p.id) := by
  refine ⟨by simp [mkRoom, freshPlayer, h], ?_, ?_, ?_⟩
  · intro room pid g
    unfold GameRoom.updatePlayerGuess
    simp only [List.map_map]
    apply List.map_congr_left
    intro p _
    by_cases hid : p.id = pid <;> simp [hid]
  · intro room pid g res
    unfold GameRoom.submitPlayerGuess
    simp only [List.map_map]
    apply List.map_congr_left
    intro p _
    by_cases hid : p.id = pid <;> simp [hid, applySubmit_id]
  · intro room w2
    unfold GameRoom.startNewRound
    simp [List.map_map]

/-- Witness for C6 (amended) at two distinct concrete ids. -/
theorem room_two_keys_of_distinct_witness :
    ((mkRoom "w6" "a" "b" [Char.ofNat 0x7816]).players.map fun p => p.id) =
      ["a", "b"] :=
  (room_two_keys_of_distinct "w6" "a" "b" [Char.ofNat 0x7816] (by decide)).1

/-- Counterexample to C7: a reachable room in which one player has guessed
the word while the opponent is still active — the round is not over, yet
`getWinner` returns the winner's id instead of none. -/
theorem winner_before_round_over_counterexample :
    (mapGet (runEvents [Event.findMatch "p3" [Char.ofNat 0x7816],
          Event.findMatch "p4" [Char.ofNat 0x7816],
          Event.roundStart "room_p4_p3" [Char.ofNat 0x7816],
          Event.submitGuess "p4" [Char.ofNat 0x7816]]).rooms
        "room_p4_p3").map (fun r => (r.getWinner, r.isGameOver)) =
      some (some "p4", false) := by
  decide

theorem find?_won_of_unique (l : List PlayerState) (p : PlayerState)
    (hp : p ∈ l) (hw : p.won = true)
    (huniq : ∀ q ∈ l, q.won = true → q = p) :
    (l.find? fun q => q.won) = some p := by
  induction l with
  | nil => simp at hp
  | cons q qs ih =>
      by_cases hq : q.won = true
      · have : q = p := huniq q (List.mem_cons_self q qs) hq
        subst this
        simp [List.find?, hq]
      · have hp' : p ∈ qs := by
          rcases List.mem_cons.mp hp with h1 | h1
          · exact absurd (h1 ▸ hw) hq
          · exact h1
        have hrec := ih hp' fun r hr hrw =>
          huniq r (List.mem_cons_of_mem q hr) hrw
        simpa [List.find?, hq] using hrec

/-- C7 (amended): `getWinner` returns none when no player has `won == true`
(in particular in the draw where both players finished without winning),
and returns the id of the player with `won == true` when exactly one such
player exists — regardless of whether the round is over; it does not
return none merely because some player is not yet finished. -/
theorem getWinner_spec (room : GameRoom) :
    ((∀ p ∈ room.players, p.won = false) → room.getWinner = none) ∧
    (∀ p ∈ room.players, p.won = true →
      (∀ q ∈ room.players, q.won = true → q = p) →
      room.getWinner = some p.id) := by
  constructor
  · intro h
    unfold GameRoom.getWinner
    have hn : (room.players.find? fun p => p.won) = none :=
      List.find?_eq_none.mpr fun q hq => by simp [h q hq]
    rw [hn]
    rfl
  · intro p hp hw huniq
    unfold GameRoom.getWinner
    rw [find?_won_of_unique room.players p hp hw huniq]
    rfl

/-- Witness for C7 (amended): a fresh room has no winner. -/
theorem getWinner_spec_witness :
    (mkRoom "w7" "a" "b" []).getWinner = none :=
  (getWinner_spec (mkRoom "w7" "a" "b" [])).1 (by decide)

/-- C1 evidence: a reachable state in which the room exists but the round
has not started (`gameStarted = false`, the pairing timeout has not fired),
and a correct-length `submitGuess` is nevertheless processed: the
submitting player's `GuessRecord` list grows and the state changes — the
handler checks only room existence, guess truthiness and length, never
`RoundActive` or `finished`. -/
theorem submitGuess_accepted_while_not_active :
    ((mapGet (runEvents [Event.findMatch "p1" [Char.ofNat 0x7816],
          Event.findMatch "p2" [Char.ofNat 0x7816]]).rooms
        "room_p2_p1").map fun r => r.gameStarted) = some false ∧
    ((mapGet (runEvents [Event.findMatch "p1" [Char.ofNat 0x7816],
          Event.findMatch "p2" [Char.ofNat 0x7816],
          Event.submitGuess "p2" [Char.ofNat 0x8F6C]]).rooms
        "room_p2_p1").map fun r =>
          r.players.map fun p => p.guesses.length) = some [1, 0] ∧
    runEvents [Event.findMatch "p1" [Char.ofNat 0x7816],
        Event.findMatch "p2" [Char.ofNat 0x7816],
        Event.submitGuess "p2" [Char.ofNat 0x8F6C]] ≠
      runEvents [Event.findMatch "p1" [Char.ofNat 0x7816],
        Event.findMatch "p2" [Char.ofNat 0x7816]] := by
  decide

/-- C2 evidence: after six non-winning submissions the player is
`finished = true` with six guesses; a seventh correct-length submission is
still accepted and appends a seventh `GuessRecord`, breaking the
`guesses.length ≤ 6` invariant. -/
theorem seventh_guess_appended :
    ((mapGet (runEvents ([Event.findMatch "p1" [Char.ofNat 0x7816],
            Event.findMatch "p2" [Char.ofNat 0x7816],
            Event.roundStart "room_p2_p1"
              [Char.ofNat 0x7816, Char.ofNat 0x7816]] ++
          List.replicate 6 (Event.submitGuess "p2"
            [Char.ofNat 0x8F6C, Char.ofNat 0x8F6C]))).rooms
        "room_p2_p1").map fun r => r.players.map fun p =>
          (p.guesses.length, p.finished, p.won)) =
      some [(6, true, false), (0, false, false)] ∧
    ((mapGet (runEvents ([Event.findMatch "p1" [Char.ofNat 0x7816],
            Event.findMatch "p2" [Char.ofNat 0x7816],
            Event.roundStart "room_p2_p1"
              [Char.ofNat 0x7816, Char.ofNat 0x7816]] ++
          List.replicate 7 (Event.submitGuess "p2"
            [Char.ofNat 0x8F6C, Char.ofNat 0x8F6C]))).rooms
        "room_p2_p1").map fun r => r.players.map fun p =>
          (p.guesses.length, p.finished, p.won)) =
      some [(7, true, false), (0, false, false)] := by
  decide

/-- C5 evidence: a second `findMatch` by the player already waiting in the
queue is not a no-op — it pops the player as their own opponent, empties
the queue, and creates a room in which the player is paired with themself
(a single entry under their own id). -/
theorem findMatch_self_pairing :
    (runEvents [Event.findMatch "q1" [Char.ofNat 0x7816],
        Event.findMatch "q1" [Char.ofNat 0x8F6C]]).waitingPlayers = [] ∧
    ((mapGet (runEvents [Event.findMatch "q1" [Char.ofNat 0x7816],
          Event.findMatch "q1" [Char.ofNat 0x8F6C]]).rooms
        "room_q1_q1").map fun r => r.players.map fun p => p.id) =
      some ["q1"] := by
  decide

theorem step_queue_length_le (s : ServerState) (e : Event)
    (h : s.waitingPlayers.length ≤ 1) :
    (step s e).waitingPlayers.length ≤ 1 := by
  cases e with
  | findMatch sid w =>
      rcases hq : s.waitingPlayers with _ | ⟨opp, rest⟩
      · simp [step, hq]
      · have : rest.length = 0 := by
          have := h
          rw [hq] at this
          simpa using this
        simp [step, hq, this]
  | cancelMatch sid =>
      calc (s.waitingPlayers.erase sid).length ≤ s.waitingPlayers.length :=
            (List.erase_sublist _ _).length_le
        _ ≤ 1 := h
  | updateGuess sid guess =>
      dsimp [step]
      split
      · exact h
      · split
        · exact h
        · exact h
  | submitGuess sid guess =>
      dsimp [step]
      split
      · exact h
      · split
        · exact h
        · split <;> exact h
  | newRound sid w =>
      dsimp [step]
      split
      · exact h
      · split
        · exact h
        · exact h
  | roundStart rid w =>
      dsimp [step]
      split
      · exact h
      · exact h
  | disconnect sid =>
      have he : (s.waitingPlayers.erase sid).length ≤ 1 :=
        le_trans (List.erase_sublist _ _).length_le h
      dsimp [step]
      split
      · exact he
      · exact he

theorem foldl_queue_length_le (es : List Event) (s : ServerState)
    (h : s.waitingPlayers.length ≤ 1) :
    (es.foldl step s).waitingPlayers.length ≤ 1 := by
  induction es generalizing s with
  | nil => exact h
  | cons e rest ih => exact ih (step s e) (step_queue_length_le s e h)

/-- C10: starting from the empty queue, every state reachable under any
sequence of events keeps at most one waiting player — `findMatch` enqueues
only when the queue is empty and otherwise pops the sole waiting entry,
and the other handlers only remove — so the queue length never exceeds 1
and in particular never holds duplicates. -/
theorem queue_at_most_one (es : List Event) :
    (runEvents es).waitingPlayers.length ≤ 1 :=
  foldl_queue_length_le es initialState (by decide)

end WordGame
